import Mathlib

/-!
Verification of the sparse-matrix library (`src/sparse_matrix/matrix.py`).

The Python code stores a matrix as a singly linked list of nodes
`(row, col, value)`; we embed that list as `List Entry`.  Every operation
below is a direct translation of the corresponding Python method:

* `insertEntry`   — the scan-and-splice loop inside `SparseMatrix.set_element`
* `setEntries`    — `SparseMatrix.set_element` (zero value is skipped)
* `getEntries`    — `SparseMatrix.get_element` (first matching node wins)
* `copyInto`      — the "copy every entry of self" loop of `add`/`subtract`
* `addInto`       — the get-then-set combination loop of `add`
* `subInto`       — the get-then-set combination loop of `subtract`
* `mulStep`/`mulInto` — the nested accumulation loops of `multiply`
* `add`/`subtract`/`multiply` — the full methods, with the dimension check;
  a raised `ValueError(msg)` is modelled as `Except.error msg`.
-/

namespace SparseMatrixSpec

/-- One linked-list node of the Python `SparseMatrix`: `(row, col, value)`. -/
structure Entry where
  row : Int
  col : Int
  value : Int
deriving DecidableEq

/-- The scan condition of `set_element`:
`current.row < row or (current.row == row and current.col < col)`. -/
def EntLt (e f : Entry) : Prop :=
  e.row < f.row ∨ (e.row = f.row ∧ e.col < f.col)

instance (e f : Entry) : Decidable (EntLt e f) := by
  unfold EntLt; exact inferInstance

/-- Non-strict (row, col) lexicographic order. -/
def EntLe (e f : Entry) : Prop :=
  EntLt e f ∨ (e.row = f.row ∧ e.col = f.col)

instance (e f : Entry) : Decidable (EntLe e f) := by
  unfold EntLe; exact inferInstance

/-- Two entries occupy different coordinates. -/
def KeyNe (e f : Entry) : Prop :=
  e.row ≠ f.row ∨ e.col ≠ f.col

instance (e f : Entry) : Decidable (KeyNe e f) := by
  unfold KeyNe; exact inferInstance

/-- The ordered-insertion loop of `SparseMatrix.set_element`: walk past every
node strictly below the new node's (row, col) and splice the new node in
front of the first remaining node.  No merging with an existing node at the
same coordinates ever happens. -/
def insertEntry (n : Entry) : List Entry → List Entry
  | [] => [n]
  | e :: rest =>
      if EntLt e n then e :: insertEntry n rest
      else n :: e :: rest

/-- `SparseMatrix.get_element`: linear scan, first node whose (row, col)
matches wins, absent coordinates give 0. -/
def getEntries : List Entry → Int → Int → Int
  | [], _, _ => 0
  | e :: rest, r, c =>
      if e.row = r ∧ e.col = c then e.value else getEntries rest r c

/-- `SparseMatrix.set_element` at the list level: value 0 is skipped
outright, otherwise a fresh node is inserted in order. -/
def setEntries (l : List Entry) (r c v : Int) : List Entry :=
  if v = 0 then l else insertEntry ⟨r, c, v⟩ l

/-- The Python `SparseMatrix` object: entry list plus the two dimensions. -/
structure SparseMatrix where
  entries : List Entry
  num_rows : Int
  num_cols : Int
deriving DecidableEq

/-- `SparseMatrix.set_element`: only the entry list changes. -/
def set_element (m : SparseMatrix) (row col value : Int) : SparseMatrix :=
  ⟨setEntries m.entries row col value, m.num_rows, m.num_cols⟩

/-- `SparseMatrix.get_element`. -/
def get_element (m : SparseMatrix) (row col : Int) : Int :=
  getEntries m.entries row col

/-- `SparseMatrix(num_rows=nr, num_cols=nc)`: empty entry list. -/
def emptyM (nr nc : Int) : SparseMatrix :=
  ⟨[], nr, nc⟩

/-- A finite sequence of `set_element` calls performed on an initially empty
matrix; each list element is one `(row, col, value)` call. -/
def applyOps (nr nc : Int) (ops : List (Int × Int × Int)) : SparseMatrix :=
  ops.foldl (fun m op => set_element m op.1 op.2.1 op.2.2) (emptyM nr nc)

/-- The copy loop shared by `add` and `subtract`:
`result.set_element(current.row, current.col, current.value)` over a list. -/
def copyInto (acc : List Entry) : List Entry → List Entry
  | [] => acc
  | e :: rest => copyInto (setEntries acc e.row e.col e.value) rest

/-- The combination loop of `add`: for each entry of the other matrix,
read the current result value and set the sum. -/
def addInto (acc : List Entry) : List Entry → List Entry
  | [] => acc
  | e :: rest =>
      addInto (setEntries acc e.row e.col (getEntries acc e.row e.col + e.value)) rest

/-- The combination loop of `subtract`: read the current result value and
set the difference. -/
def subInto (acc : List Entry) : List Entry → List Entry
  | [] => acc
  | e :: rest =>
      subInto (setEntries acc e.row e.col (getEntries acc e.row e.col - e.value)) rest

/-- Inner loop of `multiply`: one entry of the first matrix against every
entry of the second, accumulating products into the result list. -/
def mulStep (ea : Entry) (acc : List Entry) : List Entry → List Entry
  | [] => acc
  | eb :: rest =>
      mulStep ea
        (if ea.col = eb.row then
          setEntries acc ea.row eb.col
            (getEntries acc ea.row eb.col + ea.value * eb.value)
        else acc) rest

/-- Outer loop of `multiply` over the first matrix's entries. -/
def mulInto (bs : List Entry) (acc : List Entry) : List Entry → List Entry
  | [] => acc
  | ea :: arest => mulInto bs (mulStep ea acc bs) arest

/-- Result construction of `add` (after the dimension check). -/
def addBody (a b : SparseMatrix) : SparseMatrix :=
  ⟨addInto (copyInto [] a.entries) b.entries, a.num_rows, a.num_cols⟩

/-- Result construction of `subtract` (after the dimension check). -/
def subBody (a b : SparseMatrix) : SparseMatrix :=
  ⟨subInto (copyInto [] a.entries) b.entries, a.num_rows, a.num_cols⟩

/-- Result construction of `multiply` (after the dimension check). -/
def mulBody (a b : SparseMatrix) : SparseMatrix :=
  ⟨mulInto b.entries [] a.entries, a.num_rows, b.num_cols⟩

/-- Message of the `ValueError` raised by `add`. -/
def addDimMsg : String := "Matrix dimensions must match for addition."

/-- Message of the `ValueError` raised by `subtract`. -/
def subDimMsg : String := "Matrix dimensions must match for subtraction."

/-- Message of the `ValueError` raised by `multiply`. -/
def mulDimMsg : String :=
  "Number of columns in first matrix must be equal to the number of rows in second matrix for multiplication."

/-- `SparseMatrix.add`, with the raised `ValueError` as `Except.error`. -/
def add (a b : SparseMatrix) : Except String SparseMatrix :=
  if a.num_rows ≠ b.num_rows ∨ a.num_cols ≠ b.num_cols then
    Except.error addDimMsg
  else
    Except.ok (addBody a b)

/-- `SparseMatrix.subtract`, with the raised `ValueError` as `Except.error`. -/
def subtract (a b : SparseMatrix) : Except String SparseMatrix :=
  if a.num_rows ≠ b.num_rows ∨ a.num_cols ≠ b.num_cols then
    Except.error subDimMsg
  else
    Except.ok (subBody a b)

/-- `SparseMatrix.multiply`, with the raised `ValueError` as `Except.error`. -/
def multiply (a b : SparseMatrix) : Except String SparseMatrix :=
  if a.num_cols ≠ b.num_rows then
    Except.error mulDimMsg
  else
    Except.ok (mulBody a b)

/-- Modelled from the spec's words for lookup ("returns the stored value if
an entry with matching (row, col) exists, else returns 0", value of the
first stored entry with that key): the value of the first entry found by a
left-to-right search. -/
def findFirstValue (l : List Entry) (r c : Int) : Int :=
  match l.find? (fun e => e.row == r && e.col == c) with
  | some e => e.value
  | none => 0

/-- Strict (row, col) lexicographic sortedness — the §3 invariant. -/
def SortedLt (l : List Entry) : Prop :=
  List.Pairwise EntLt l

/-- Non-strict (row, col) lexicographic sortedness. -/
def SortedLe (l : List Entry) : Prop :=
  List.Pairwise EntLe l

/-- Well-formed matrix state: strictly sorted entry list (hence no duplicate
coordinates) and no materialized zero value — the §3 invariants. -/
def WF (m : SparseMatrix) : Prop :=
  SortedLt m.entries ∧ ∀ e ∈ m.entries, e.value ≠ 0

/-- What one combination step of `add` actually produces at one cell:
the sum, except that a sum of exactly 0 is skipped by `set_element` and the
previous value survives. -/
def combineAdd (a b : Int) : Int :=
  if b = 0 then a else if a + b = 0 then a else a + b

instance (l : List Entry) : Decidable (SortedLt l) := by
  unfold SortedLt; exact inferInstance

instance (l : List Entry) : Decidable (SortedLe l) := by
  unfold SortedLe; exact inferInstance

instance (m : SparseMatrix) : Decidable (WF m) := by
  unfold WF SortedLt; exact inferInstance

/- ### Basic lemmas about `getEntries` / `insertEntry` / `setEntries` -/

theorem getEntries_nil (r c : Int) : getEntries [] r c = 0 := rfl

theorem getEntries_cons (e : Entry) (l : List Entry) (r c : Int) :
    getEntries (e :: l) r c =
      if e.row = r ∧ e.col = c then e.value else getEntries l r c := rfl

theorem not_match_of_entLt {e n : Entry} (h : EntLt e n) :
    ¬(e.row = n.row ∧ e.col = n.col) := by
  unfold EntLt at h; omega

/-- The freshly inserted node is the first one with its coordinates, so the
lookup sees it. -/
theorem getEntries_insert_self (n : Entry) :
    ∀ l : List Entry, getEntries (insertEntry n l) n.row n.col = n.value := by
  intro l
  induction l with
  | nil => simp [insertEntry, getEntries]
  | cons e rest ih =>
      by_cases h : EntLt e n
      · rw [insertEntry, if_pos h, getEntries_cons, if_neg (not_match_of_entLt h)]
        exact ih
      · rw [insertEntry, if_neg h, getEntries_cons, if_pos ⟨rfl, rfl⟩]

/-- Inserting a node does not change the lookup at any other coordinate. -/
theorem getEntries_insert_ne (n : Entry) {r c : Int}
    (h : ¬(n.row = r ∧ n.col = c)) :
    ∀ l : List Entry, getEntries (insertEntry n l) r c = getEntries l r c := by
  intro l
  induction l with
  | nil => simp [insertEntry, getEntries, h]
  | cons e rest ih =>
      by_cases he : EntLt e n
      · rw [insertEntry, if_pos he, getEntries_cons, getEntries_cons, ih]
      · rw [insertEntry, if_neg he, getEntries_cons, if_neg h]

theorem length_insertEntry (n : Entry) :
    ∀ l : List Entry, (insertEntry n l).length = l.length + 1 := by
  intro l
  induction l with
  | nil => rfl
  | cons e rest ih =>
      by_cases h : EntLt e n
      · rw [insertEntry, if_pos h]; simp [ih]
      · rw [insertEntry, if_neg h]; simp

theorem setEntries_zero (l : List Entry) (r c : Int) :
    setEntries l r c 0 = l := by
  simp [setEntries]

theorem getEntries_set_self {v : Int} (l : List Entry) (r c : Int) (hv : v ≠ 0) :
    getEntries (setEntries l r c v) r c = v := by
  rw [setEntries, if_neg hv]
  exact getEntries_insert_self ⟨r, c, v⟩ l

theorem getEntries_set_ne {r0 c0 r c : Int} (h : ¬(r0 = r ∧ c0 = c))
    (l : List Entry) (v : Int) :
    getEntries (setEntries l r0 c0 v) r c = getEntries l r c := by
  rw [setEntries]
  by_cases hv : v = 0
  · rw [if_pos hv]
  · rw [if_neg hv]
    exact getEntries_insert_ne ⟨r0, c0, v⟩ h l

theorem getEntries_eq_zero_of_no_match {r c : Int} :
    ∀ l : List Entry, (∀ e ∈ l, ¬(e.row = r ∧ e.col = c)) →
      getEntries l r c = 0 := by
  intro l
  induction l with
  | nil => intro _; rfl
  | cons e rest ih =>
      intro h
      rw [getEntries_cons, if_neg (h e (List.mem_cons_self e rest))]
      exact ih fun f hf => h f (List.mem_cons_of_mem e hf)

/- ### Order lemmas -/

theorem entLe_of_not_lt {e n : Entry} (h : ¬ EntLt e n) : EntLe n e := by
  simp only [EntLe, EntLt] at *; omega

theorem entLe_trans {a b c : Entry} (h1 : EntLe a b) (h2 : EntLe b c) :
    EntLe a c := by
  simp only [EntLe, EntLt] at *; omega

theorem keyNe_of_entLt {e f : Entry} (h : EntLt e f) : KeyNe e f := by
  simp only [EntLt, KeyNe] at *; omega

theorem pairwise_keyNe_of_sortedLt {l : List Entry} (h : SortedLt l) :
    List.Pairwise KeyNe l :=
  h.imp keyNe_of_entLt

/- ### Sortedness through insertion -/

theorem mem_insertEntry {n f : Entry} :
    ∀ l : List Entry, f ∈ insertEntry n l → f = n ∨ f ∈ l := by
  intro l
  induction l with
  | nil =>
      intro h
      rw [insertEntry] at h
      exact Or.inl (List.mem_singleton.mp h)
  | cons e rest ih =>
      intro h
      by_cases he : EntLt e n
      · rw [insertEntry, if_pos he] at h
        rcases List.mem_cons.mp h with rfl | h2
        · exact Or.inr (List.mem_cons_self _ _)
        · rcases ih h2 with rfl | h3
          · exact Or.inl rfl
          · exact Or.inr (List.mem_cons_of_mem _ h3)
      · rw [insertEntry, if_neg he] at h
        rcases List.mem_cons.mp h with rfl | h2
        · exact Or.inl rfl
        · exact Or.inr h2

/-- Ordered insertion keeps the list non-strictly sorted.  (It cannot keep
it strictly sorted: a second node with the same coordinates lands right in
front of the first.) -/
theorem sortedLe_insertEntry (n : Entry) :
    ∀ l : List Entry, SortedLe l → SortedLe (insertEntry n l) := by
  intro l
  induction l with
  | nil =>
      intro _
      rw [insertEntry]
      exact List.pairwise_singleton _ _
  | cons e rest ih =>
      intro hs
      have he : ∀ f ∈ rest, EntLe e f := (List.pairwise_cons.mp hs).1
      have hr : SortedLe rest := (List.pairwise_cons.mp hs).2
      by_cases h : EntLt e n
      · rw [insertEntry, if_pos h]
        refine List.pairwise_cons.mpr ⟨?_, ih hr⟩
        intro f hf
        rcases mem_insertEntry rest hf with rfl | hf2
        · exact Or.inl h
        · exact he f hf2
      · rw [insertEntry, if_neg h]
        refine List.pairwise_cons.mpr ⟨?_, hs⟩
        intro f hf
        rcases List.mem_cons.mp hf with rfl | hf2
        · exact entLe_of_not_lt h
        · exact entLe_trans (entLe_of_not_lt h) (he f hf2)

theorem sortedLe_setEntries (l : List Entry) (r c v : Int) (hs : SortedLe l) :
    SortedLe (setEntries l r c v) := by
  rw [setEntries]
  by_cases hv : v = 0
  · rw [if_pos hv]; exact hs
  · rw [if_neg hv]; exact sortedLe_insertEntry _ l hs

theorem applyOps_loop_sorted :
    ∀ (ops : List (Int × Int × Int)) (m : SparseMatrix), SortedLe m.entries →
      SortedLe (ops.foldl (fun m op => set_element m op.1 op.2.1 op.2.2) m).entries := by
  intro ops
  induction ops with
  | nil => intro m hm; exact hm
  | cons op rest ih =>
      intro m hm
      rw [List.foldl_cons]
      exact ih _ (sortedLe_setEntries m.entries op.1 op.2.1 op.2.2 hm)

/- ### An element greater than the whole list goes to the back -/

theorem insertEntry_eq_append (n : Entry) :
    ∀ l : List Entry, (∀ e ∈ l, EntLt e n) → insertEntry n l = l ++ [n] := by
  intro l
  induction l with
  | nil => intro _; rfl
  | cons e rest ih =>
      intro h
      rw [insertEntry, if_pos (h e (List.mem_cons_self e rest)),
        ih fun f hf => h f (List.mem_cons_of_mem e hf)]
      rfl

/-- The copy loop of `add`/`subtract` reproduces a well-formed entry list
exactly: every entry is strictly above everything already copied, so each
insertion is an append, and no value is 0, so none is skipped. -/
theorem copyInto_eq :
    ∀ l : List Entry, (∀ e ∈ l, e.value ≠ 0) →
      ∀ acc : List Entry, SortedLt (acc ++ l) → copyInto acc l = acc ++ l := by
  intro l
  induction l with
  | nil => intro _ acc _; simp [copyInto]
  | cons e rest ih =>
      intro hv acc hs
      have hlt : ∀ f ∈ acc, EntLt f e := by
        intro f hf
        exact (List.pairwise_append.mp hs).2.2 f hf e (List.mem_cons_self e rest)
      have hset : setEntries acc e.row e.col e.value = acc ++ [e] := by
        rw [setEntries, if_neg (hv e (List.mem_cons_self e rest))]
        exact insertEntry_eq_append ⟨e.row, e.col, e.value⟩ acc hlt
      rw [copyInto, hset,
        ih (fun f hf => hv f (List.mem_cons_of_mem e hf)) (acc ++ [e])
          (by rw [List.append_assoc]; exact hs)]
      rw [List.append_assoc]
      rfl

/- ### Lookup of a member of a duplicate-free list -/

theorem getEntries_mem :
    ∀ l : List Entry, List.Pairwise KeyNe l →
      ∀ e ∈ l, getEntries l e.row e.col = e.value := by
  intro l
  induction l with
  | nil => intro _ e he; cases he
  | cons f rest ih =>
      intro hp e he
      rcases List.mem_cons.mp he with rfl | hr
      · rw [getEntries_cons, if_pos ⟨rfl, rfl⟩]
      · have hne : KeyNe f e := (List.pairwise_cons.mp hp).1 e hr
        rw [getEntries_cons, if_neg (by unfold KeyNe at hne; omega)]
        exact ih (List.pairwise_cons.mp hp).2 e hr

/- ### The subtraction loop over values it already holds is a no-op -/

theorem subInto_noop :
    ∀ (l acc : List Entry), (∀ e ∈ l, getEntries acc e.row e.col = e.value) →
      subInto acc l = acc := by
  intro l
  induction l with
  | nil => intro acc _; rfl
  | cons e rest ih =>
      intro acc h
      have hstep : setEntries acc e.row e.col
          (getEntries acc e.row e.col - e.value) = acc := by
        rw [h e (List.mem_cons_self e rest), sub_self]
        exact setEntries_zero acc e.row e.col
      rw [subInto, hstep]
      exact ih acc fun f hf => h f (List.mem_cons_of_mem e hf)

/- ### Pointwise characterization of the addition loop -/

/-- What the get-then-set loop of `add` really computes at every cell, for a
second operand with pairwise-distinct coordinates and no zero value: the
sum, except that a cancelled sum (`a + b = 0` with `b ≠ 0`) is skipped by
`set_element` and the previous value survives (`combineAdd`). -/
theorem addInto_get :
    ∀ l : List Entry, List.Pairwise KeyNe l → (∀ e ∈ l, e.value ≠ 0) →
      ∀ (acc : List Entry) (r c : Int),
        getEntries (addInto acc l) r c =
          combineAdd (getEntries acc r c) (getEntries l r c) := by
  intro l
  induction l with
  | nil =>
      intro _ _ acc r c
      rw [addInto, getEntries_nil, combineAdd, if_pos rfl]
  | cons e rest ih =>
      intro hp hv acc r c
      have hpr : List.Pairwise KeyNe rest := (List.pairwise_cons.mp hp).2
      have hke : ∀ f ∈ rest, KeyNe e f := (List.pairwise_cons.mp hp).1
      have hvr : ∀ f ∈ rest, f.value ≠ 0 :=
        fun f hf => hv f (List.mem_cons_of_mem e hf)
      have hve : e.value ≠ 0 := hv e (List.mem_cons_self e rest)
      rw [addInto, ih hpr hvr _ r c]
      by_cases hm : e.row = r ∧ e.col = c
      · obtain ⟨h1, h2⟩ := hm
        subst h1; subst h2
        have h0 : getEntries rest e.row e.col = 0 :=
          getEntries_eq_zero_of_no_match rest fun f hf => by
            have := hke f hf; unfold KeyNe at this; omega
        rw [h0, getEntries_cons, if_pos ⟨rfl, rfl⟩]
        by_cases hz : getEntries acc e.row e.col + e.value = 0
        · rw [hz, setEntries_zero]
          rw [combineAdd, if_pos rfl, combineAdd, if_neg hve, if_pos hz]
        · rw [getEntries_set_self acc e.row e.col hz]
          rw [combineAdd, if_pos rfl, combineAdd, if_neg hve, if_neg hz]
      · rw [getEntries_set_ne hm, getEntries_cons, if_neg hm]

/- ### Lookup agrees with a first-match search -/

theorem getEntries_eq_findFirstValue :
    ∀ (l : List Entry) (r c : Int), getEntries l r c = findFirstValue l r c := by
  intro l r c
  induction l with
  | nil => rfl
  | cons e rest ih =>
      by_cases h : e.row = r ∧ e.col = c
      · have hb : (fun f : Entry => f.row == r && f.col == c) e = true := by
          simp [h.1, h.2]
        rw [getEntries_cons, if_pos h, findFirstValue,
          List.find?_cons_of_pos rest hb]
      · have hb : ¬((fun f : Entry => f.row == r && f.col == c) e = true) := by
          simpa using h
        rw [getEntries_cons, if_neg h, findFirstValue,
          List.find?_cons_of_neg rest hb]
        exact ih

/- ### Pointwise value of `addBody` on well-formed inputs -/

theorem addBody_get (A B : SparseMatrix) (hA : WF A) (hB : WF B) (r c : Int) :
    get_element (addBody A B) r c =
      combineAdd (get_element A r c) (get_element B r c) := by
  show getEntries (addInto (copyInto [] A.entries) B.entries) r c = _
  rw [copyInto_eq A.entries hA.2 [] (by simpa using hA.1), List.nil_append]
  exact addInto_get B.entries (pairwise_keyNe_of_sortedLt hB.1) hB.2 A.entries r c

theorem combineAdd_comm {a b : Int} (h : a + b ≠ 0 ∨ (a = 0 ∧ b = 0)) :
    combineAdd a b = combineAdd b a := by
  unfold combineAdd
  split_ifs <;> omega

/- ### Claims -/

/-- C1 (counterexample): the claim "result[r][c] = A[r][c] + B[r][c] at every
coordinate where either input has a non-zero entry" fails at signed
cancellation.  With A = {(0,0,5)} and B = {(0,0,-5)}, both 1x1 and
well-formed, A[0][0] + B[0][0] = 0, yet `add` first copies A's entry and
then calls `set_element(0, 0, 0)`, which is a no-op, so the result still
reads 5 at (0,0). -/
theorem add_cancellation_cex :
    add ⟨[⟨0, 0, 5⟩], 1, 1⟩ ⟨[⟨0, 0, -5⟩], 1, 1⟩ =
      Except.ok (addBody ⟨[⟨0, 0, 5⟩], 1, 1⟩ ⟨[⟨0, 0, -5⟩], 1, 1⟩) ∧
    get_element ⟨[⟨0, 0, 5⟩], 1, 1⟩ 0 0 +
      get_element ⟨[⟨0, 0, -5⟩], 1, 1⟩ 0 0 = 0 ∧
    get_element (addBody ⟨[⟨0, 0, 5⟩], 1, 1⟩ ⟨[⟨0, 0, -5⟩], 1, 1⟩) 0 0 = 5 :=
  ⟨rfl, by decide, by decide⟩

/-- C1 (amended): for well-formed operands of equal dimensions (strictly
sorted entry list and no stored zero — the §3 invariant, which reachable
states can in fact violate via duplicate insertion), `add` succeeds and
its result reads `combineAdd (A[r][c]) (B[r][c])` at every coordinate:
the sum A[r][c] + B[r][c], except where B has a non-zero entry and the sum
is exactly 0, in which case the zero-skip of `set_element` leaves A's copied
value in place and the result reads A[r][c]. -/
theorem add_pointwise_sum_amended (A B : SparseMatrix) (r c : Int)
    (hA : WF A) (hB : WF B)
    (hr : A.num_rows = B.num_rows) (hc : A.num_cols = B.num_cols) :
    add A B = Except.ok (addBody A B) ∧
    get_element (addBody A B) r c =
      combineAdd (get_element A r c) (get_element B r c) :=
  ⟨by rw [add, if_neg (by omega)], addBody_get A B hA hB r c⟩

theorem add_pointwise_sum_amended_witness :
    (WF ⟨[⟨0, 0, 2⟩], 1, 1⟩ ∧ WF ⟨[⟨0, 0, 3⟩], 1, 1⟩ ∧
      (⟨[⟨0, 0, 2⟩], 1, 1⟩ : SparseMatrix).num_rows =
        (⟨[⟨0, 0, 3⟩], 1, 1⟩ : SparseMatrix).num_rows ∧
      (⟨[⟨0, 0, 2⟩], 1, 1⟩ : SparseMatrix).num_cols =
        (⟨[⟨0, 0, 3⟩], 1, 1⟩ : SparseMatrix).num_cols) ∧
    (add ⟨[⟨0, 0, 2⟩], 1, 1⟩ ⟨[⟨0, 0, 3⟩], 1, 1⟩ =
        Except.ok (addBody ⟨[⟨0, 0, 2⟩], 1, 1⟩ ⟨[⟨0, 0, 3⟩], 1, 1⟩) ∧
      get_element (addBody ⟨[⟨0, 0, 2⟩], 1, 1⟩ ⟨[⟨0, 0, 3⟩], 1, 1⟩) 0 0 =
        combineAdd (get_element ⟨[⟨0, 0, 2⟩], 1, 1⟩ 0 0)
          (get_element ⟨[⟨0, 0, 3⟩], 1, 1⟩ 0 0)) :=
  ⟨⟨by decide, by decide, rfl, rfl⟩,
    add_pointwise_sum_amended ⟨[⟨0, 0, 2⟩], 1, 1⟩ ⟨[⟨0, 0, 3⟩], 1, 1⟩ 0 0
      (by decide) (by decide) rfl rfl⟩

/-- C2 (counterexample): `subtract(A, A)` does not return an empty matrix.
For A = {(0,0,5)}, the combination loop computes 5 - 5 = 0 and calls
`set_element(0, 0, 0)`, a no-op, so the copied entry (0,0,5) survives and
the result's stored entry sequence is [(0,0,5)], not []. -/
theorem sub_self_cex :
    subtract ⟨[⟨0, 0, 5⟩], 1, 1⟩ ⟨[⟨0, 0, 5⟩], 1, 1⟩ =
      Except.ok (subBody ⟨[⟨0, 0, 5⟩], 1, 1⟩ ⟨[⟨0, 0, 5⟩], 1, 1⟩) ∧
    (subBody ⟨[⟨0, 0, 5⟩], 1, 1⟩ ⟨[⟨0, 0, 5⟩], 1, 1⟩).entries = [⟨0, 0, 5⟩] ∧
    (subBody ⟨[⟨0, 0, 5⟩], 1, 1⟩ ⟨[⟨0, 0, 5⟩], 1, 1⟩).entries ≠ [] :=
  ⟨rfl, by decide, by decide⟩

/-- C2 (amended): for a well-formed matrix A, `subtract(A, A)` succeeds and
returns a matrix whose stored entry sequence is exactly A's own entry
sequence — every subtraction result is 0, every `set_element(r, c, 0)` is a
no-op, so no entry is removed and none is changed.  In particular the result
is empty only when A itself is empty. -/
theorem sub_self_amended (A : SparseMatrix) (hW : WF A) :
    subtract A A = Except.ok (subBody A A) ∧
    (subBody A A).entries = A.entries := by
  refine ⟨by rw [subtract, if_neg (by omega)], ?_⟩
  show subInto (copyInto [] A.entries) A.entries = A.entries
  rw [copyInto_eq A.entries hW.2 [] (by simpa using hW.1), List.nil_append]
  exact subInto_noop A.entries A.entries
    (getEntries_mem A.entries (pairwise_keyNe_of_sortedLt hW.1))

theorem sub_self_amended_witness :
    WF ⟨[⟨0, 0, 5⟩], 1, 1⟩ ∧
    (subtract ⟨[⟨0, 0, 5⟩], 1, 1⟩ ⟨[⟨0, 0, 5⟩], 1, 1⟩ =
        Except.ok (subBody ⟨[⟨0, 0, 5⟩], 1, 1⟩ ⟨[⟨0, 0, 5⟩], 1, 1⟩) ∧
      (subBody ⟨[⟨0, 0, 5⟩], 1, 1⟩ ⟨[⟨0, 0, 5⟩], 1, 1⟩).entries =
        (⟨[⟨0, 0, 5⟩], 1, 1⟩ : SparseMatrix).entries) :=
  ⟨by decide, sub_self_amended ⟨[⟨0, 0, 5⟩], 1, 1⟩ (by decide)⟩

/-- C3 (counterexample): two `set_element` calls at the same coordinates,
starting from an empty matrix, produce two stored entries that share
(row, col) = (0, 0): the insertion loop splices the new node in front of the
old one without merging.  The stored sequence [(0,0,2), (0,0,1)] is neither
strictly increasing nor duplicate-free. -/
theorem set_element_dup_cex :
    (applyOps 1 1 [(0, 0, 1), (0, 0, 2)]).entries = [⟨0, 0, 2⟩, ⟨0, 0, 1⟩] ∧
    ¬ SortedLt (applyOps 1 1 [(0, 0, 1), (0, 0, 2)]).entries ∧
    ¬ List.Pairwise KeyNe (applyOps 1 1 [(0, 0, 1), (0, 0, 2)]).entries :=
  ⟨by decide, by decide, by decide⟩

/-- C3 (amended): after any finite sequence of `set_element` calls starting
from an empty matrix, the stored entries are NON-STRICTLY sorted in
(row, col) lexicographic order.  Strict increase and coordinate uniqueness
do not hold in general: a repeated coordinate creates a duplicate node
(placed in front of the old one). -/
theorem set_element_sorted_amended (nr nc : Int) (ops : List (Int × Int × Int)) :
    SortedLe (applyOps nr nc ops).entries :=
  applyOps_loop_sorted ops (emptyM nr nc) List.Pairwise.nil

/-- C4 (confirmed): after `set_element(r, c, v)` with v ≠ 0, `get_element(r, c)`
returns v, from any starting state.  The insertion scan walks only past
nodes strictly below (r, c), so the new node precedes every existing node
with the same coordinates and the first-match lookup sees it. -/
theorem set_then_get (m : SparseMatrix) (r c v : Int) (hv : v ≠ 0) :
    get_element (set_element m r c v) r c = v :=
  getEntries_set_self m.entries r c hv

theorem set_then_get_witness :
    (9 : Int) ≠ 0 ∧
    get_element (set_element ⟨[⟨0, 0, 4⟩], 2, 2⟩ 0 0 9) 0 0 = 9 :=
  ⟨by decide, set_then_get ⟨[⟨0, 0, 4⟩], 2, 2⟩ 0 0 9 (by decide)⟩

/-- C5 (confirmed): for every matrix and every coordinate pair — arbitrary
integers, including coordinates outside [0, num_rows) x [0, num_cols) —
`get_element` returns the value of the first stored entry with matching
(row, col) if one exists, else 0 (`findFirstValue`, a first-match search
via `List.find?`).  In this embedding `get_element` is a total function
that returns an integer and does not touch the matrix, which is the
never-raises / no-side-effects part of the claim. -/
theorem get_element_first_match (m : SparseMatrix) (r c : Int) :
    get_element m r c = findFirstValue m.entries r c :=
  getEntries_eq_findFirstValue m.entries r c

/-- C6 (confirmed): `set_element(r, c, 0)` returns at once, so the matrix is
entirely unchanged and every later `get_element` — at (r, c) or anywhere
else — returns exactly what it returned before. -/
theorem set_zero_noop (m : SparseMatrix) (r c : Int) :
    set_element m r c 0 = m ∧
    ∀ r2 c2 : Int, get_element (set_element m r c 0) r2 c2 = get_element m r2 c2 := by
  have h : set_element m r c 0 = m := by
    show (⟨setEntries m.entries r c 0, m.num_rows, m.num_cols⟩ : SparseMatrix) = m
    rw [setEntries_zero]
  exact ⟨h, fun r2 c2 => by rw [h]⟩

/-- C7 (counterexample): the claim says the dimension error carries both
matrices' dimensions.  The code raises a plain `ValueError` with one fixed
message: two operand pairs with entirely different dimensions (1x1 vs 2x2,
and 3x7 vs 4x9) produce the identical error value, so the error cannot carry
the dimensions. -/
theorem dim_check_cex :
    add (emptyM 1 1) (emptyM 2 2) = Except.error addDimMsg ∧
    add (emptyM 3 7) (emptyM 4 9) = Except.error addDimMsg :=
  ⟨rfl, rfl⟩

/-- C7 (amended): `add` and `subtract` fail exactly when the row counts or
column counts differ, and `multiply` exactly when the first operand's
`num_cols` differs from the second's `num_rows`; in all other cases the
operations succeed and return the constructed result (no truncation or
padding).  The error, however, is a plain `ValueError` with a fixed
per-operation message that does not carry the operands' dimensions. -/
theorem dim_check_amended (A B : SparseMatrix) :
    ((A.num_rows ≠ B.num_rows ∨ A.num_cols ≠ B.num_cols) →
      add A B = Except.error addDimMsg ∧
      subtract A B = Except.error subDimMsg) ∧
    (A.num_rows = B.num_rows → A.num_cols = B.num_cols →
      add A B = Except.ok (addBody A B) ∧
      subtract A B = Except.ok (subBody A B)) ∧
    (A.num_cols ≠ B.num_rows → multiply A B = Except.error mulDimMsg) ∧
    (A.num_cols = B.num_rows → multiply A B = Except.ok (mulBody A B)) := by
  refine ⟨fun h => ⟨?_, ?_⟩, fun h1 h2 => ⟨?_, ?_⟩, fun h => ?_, fun h => ?_⟩
  · rw [add, if_pos h]
  · rw [subtract, if_pos h]
  · rw [add, if_neg (by omega)]
  · rw [subtract, if_neg (by omega)]
  · rw [multiply, if_pos h]
  · rw [multiply, if_neg (by omega)]

theorem dim_check_amended_witness :
    ((emptyM 1 1).num_rows ≠ (emptyM 2 2).num_rows ∨
      (emptyM 1 1).num_cols ≠ (emptyM 2 2).num_cols) ∧
    (add (emptyM 1 1) (emptyM 2 2) = Except.error addDimMsg ∧
      subtract (emptyM 1 1) (emptyM 2 2) = Except.error subDimMsg) :=
  ⟨by decide, (dim_check_amended (emptyM 1 1) (emptyM 2 2)).1 (by decide)⟩

/-- C8 (counterexample): on the spec's concrete inputs the product's stored
entry sequence is NOT the single entry (0,0,23).  The accumulation for cell
(0,0) first stores (0,0,8) = 2*4 and then inserts (0,0,23) = 8 + 3*5 in
front of it without removing the stale node, leaving two stored entries. -/
theorem multiply_concrete_cex :
    multiply ⟨[⟨0, 0, 2⟩, ⟨0, 1, 3⟩], 1, 2⟩ ⟨[⟨0, 0, 4⟩, ⟨1, 0, 5⟩], 2, 1⟩ =
      Except.ok (mulBody ⟨[⟨0, 0, 2⟩, ⟨0, 1, 3⟩], 1, 2⟩ ⟨[⟨0, 0, 4⟩, ⟨1, 0, 5⟩], 2, 1⟩) ∧
    (mulBody ⟨[⟨0, 0, 2⟩, ⟨0, 1, 3⟩], 1, 2⟩ ⟨[⟨0, 0, 4⟩, ⟨1, 0, 5⟩], 2, 1⟩).entries ≠
      [⟨0, 0, 23⟩] :=
  ⟨rfl, by decide⟩

/-- C8 (amended): for A = {(0,0,2), (0,1,3)} (1x2) and B = {(0,0,4), (1,0,5)}
(2x1), `multiply(A, B)` returns a 1x1 matrix that reads 23 at (0,0); its
stored entry sequence is [(0,0,23), (0,0,8)] — the correct accumulated entry
followed by the stale intermediate node (0,0,8). -/
theorem multiply_concrete_amended :
    multiply ⟨[⟨0, 0, 2⟩, ⟨0, 1, 3⟩], 1, 2⟩ ⟨[⟨0, 0, 4⟩, ⟨1, 0, 5⟩], 2, 1⟩ =
      Except.ok ⟨[⟨0, 0, 23⟩, ⟨0, 0, 8⟩], 1, 1⟩ ∧
    get_element ⟨[⟨0, 0, 23⟩, ⟨0, 0, 8⟩], 1, 1⟩ 0 0 = 23 :=
  ⟨rfl, by decide⟩

/-- C9 (counterexample): `add(A, B)` and `add(B, A)` do not enumerate the
same entry sequence.  With A = {(0,0,1)} and B = {(0,0,2)}, both 1x1,
`add(A, B)` stores [(0,0,3), (0,0,1)] (sum inserted in front of A's stale
copied node) while `add(B, A)` stores [(0,0,3), (0,0,2)]. -/
theorem add_comm_cex :
    add ⟨[⟨0, 0, 1⟩], 1, 1⟩ ⟨[⟨0, 0, 2⟩], 1, 1⟩ =
      Except.ok (addBody ⟨[⟨0, 0, 1⟩], 1, 1⟩ ⟨[⟨0, 0, 2⟩], 1, 1⟩) ∧
    add ⟨[⟨0, 0, 2⟩], 1, 1⟩ ⟨[⟨0, 0, 1⟩], 1, 1⟩ =
      Except.ok (addBody ⟨[⟨0, 0, 2⟩], 1, 1⟩ ⟨[⟨0, 0, 1⟩], 1, 1⟩) ∧
    (addBody ⟨[⟨0, 0, 1⟩], 1, 1⟩ ⟨[⟨0, 0, 2⟩], 1, 1⟩).entries =
      [⟨0, 0, 3⟩, ⟨0, 0, 1⟩] ∧
    (addBody ⟨[⟨0, 0, 2⟩], 1, 1⟩ ⟨[⟨0, 0, 1⟩], 1, 1⟩).entries =
      [⟨0, 0, 3⟩, ⟨0, 0, 2⟩] ∧
    (addBody ⟨[⟨0, 0, 1⟩], 1, 1⟩ ⟨[⟨0, 0, 2⟩], 1, 1⟩).entries ≠
      (addBody ⟨[⟨0, 0, 2⟩], 1, 1⟩ ⟨[⟨0, 0, 1⟩], 1, 1⟩).entries :=
  ⟨rfl, rfl, by decide, by decide, by decide⟩

/-- C9 (amended): commutativity of `add` holds only observationally (through
`get_element`, not through the stored sequences) and only away from signed
cancellation: for well-formed A, B of equal dimensions such that no
coordinate has A[r][c] + B[r][c] = 0 with either side non-zero, `add(A, B)`
and `add(B, A)` read the same value at every coordinate.  (With
cancellation even this fails: the cancelled cell keeps the first operand's
value.) -/
theorem add_comm_get_amended (A B : SparseMatrix) (r c : Int)
    (hA : WF A) (hB : WF B)
    (hr : A.num_rows = B.num_rows) (hc : A.num_cols = B.num_cols)
    (hnc : ∀ r2 c2 : Int, get_element A r2 c2 + get_element B r2 c2 ≠ 0 ∨
      (get_element A r2 c2 = 0 ∧ get_element B r2 c2 = 0)) :
    add A B = Except.ok (addBody A B) ∧
    add B A = Except.ok (addBody B A) ∧
    get_element (addBody A B) r c = get_element (addBody B A) r c := by
  refine ⟨by rw [add, if_neg (by omega)], by rw [add, if_neg (by omega)], ?_⟩
  rw [addBody_get A B hA hB r c, addBody_get B A hB hA r c]
  have h := hnc r c
  exact combineAdd_comm (by omega)

theorem add_comm_get_amended_witness :
    (WF ⟨[⟨0, 0, 2⟩], 1, 1⟩ ∧ WF ⟨[⟨0, 0, 3⟩], 1, 1⟩ ∧
      (∀ r2 c2 : Int,
        get_element ⟨[⟨0, 0, 2⟩], 1, 1⟩ r2 c2 +
          get_element ⟨[⟨0, 0, 3⟩], 1, 1⟩ r2 c2 ≠ 0 ∨
        (get_element ⟨[⟨0, 0, 2⟩], 1, 1⟩ r2 c2 = 0 ∧
          get_element ⟨[⟨0, 0, 3⟩], 1, 1⟩ r2 c2 = 0))) ∧
    (add ⟨[⟨0, 0, 2⟩], 1, 1⟩ ⟨[⟨0, 0, 3⟩], 1, 1⟩ =
        Except.ok (addBody ⟨[⟨0, 0, 2⟩], 1, 1⟩ ⟨[⟨0, 0, 3⟩], 1, 1⟩) ∧
      add ⟨[⟨0, 0, 3⟩], 1, 1⟩ ⟨[⟨0, 0, 2⟩], 1, 1⟩ =
        Except.ok (addBody ⟨[⟨0, 0, 3⟩], 1, 1⟩ ⟨[⟨0, 0, 2⟩], 1, 1⟩) ∧
      get_element (addBody ⟨[⟨0, 0, 2⟩], 1, 1⟩ ⟨[⟨0, 0, 3⟩], 1, 1⟩) 0 0 =
        get_element (addBody ⟨[⟨0, 0, 3⟩], 1, 1⟩ ⟨[⟨0, 0, 2⟩], 1, 1⟩) 0 0) := by
  have hnc : ∀ r2 c2 : Int,
      get_element ⟨[⟨0, 0, 2⟩], 1, 1⟩ r2 c2 +
        get_element ⟨[⟨0, 0, 3⟩], 1, 1⟩ r2 c2 ≠ 0 ∨
      (get_element ⟨[⟨0, 0, 2⟩], 1, 1⟩ r2 c2 = 0 ∧
        get_element ⟨[⟨0, 0, 3⟩], 1, 1⟩ r2 c2 = 0) := by
    intro r2 c2
    by_cases h : (0 : Int) = r2 ∧ (0 : Int) = c2
    · left
      show getEntries [⟨0, 0, 2⟩] r2 c2 + getEntries [⟨0, 0, 3⟩] r2 c2 ≠ 0
      rw [getEntries_cons, if_pos h, getEntries_cons, if_pos h]
      decide
    · right
      constructor <;>
        · show getEntries _ r2 c2 = 0
          rw [getEntries_cons, if_neg h]
          rfl
  exact ⟨⟨by decide, by decide, hnc⟩,
    add_comm_get_amended ⟨[⟨0, 0, 2⟩], 1, 1⟩ ⟨[⟨0, 0, 3⟩], 1, 1⟩ 0 0
      (by decide) (by decide) rfl rfl hnc⟩

/-- C10 (confirmed): `set_element` with a non-zero value always inserts
exactly one new node — even when an entry at the same coordinates already
exists — and with value 0 inserts nothing; so the stored-entry count after
any call is the old count plus 0 or 1 and never decreases.  In this
embedding `get_element`, `add`, `subtract` and `multiply` are functions of
their operands that build fresh results, mirroring the Python code, which
only ever reads the operands' nodes. -/
theorem set_element_length (m : SparseMatrix) (r c v : Int) :
    (set_element m r c v).entries.length =
      m.entries.length + (if v = 0 then 0 else 1) := by
  show (setEntries m.entries r c v).length = _
  rw [setEntries]
  by_cases hv : v = 0
  · rw [if_pos hv, if_pos hv, Nat.add_zero]
  · rw [if_neg hv, if_neg hv, length_insertEntry]

end SparseMatrixSpec
